import Mathlib

/-!
# Shallow embedding of the `Struct` codec (src/packages/types-codec/src/native/Struct.ts)
and the `Text` codec behaviour exercised by its test file.

Bytes are modelled as `List Nat`.  A live codec instance is a `CodecVal`; a codec
class (a `CodecClass` in the TypeScript sense: something you can `new` with a
registry and a value) is a `CodecClass α`, where `α` is the universe of raw
input values a construction may receive.  `CodecClass.construct none` models
`new Type(registry)` (construction from `undefined`), `construct (some a)`
models `new Type(registry, a)`, and an exception is an `Except.error` carrying
the message; `CodecClass.instOf a` models the `assign instanceof Type` test,
returning the codec instance when `a` already is one of this class.

`mapToTypeMap` (in `../utils`, outside the excerpt) resolves string type
descriptors through the registry into constructors; the embedding therefore
takes the resolved `(key, CodecClass)` list directly, in declared order, as
`Object.keys`/`Object.entries` of the `Types` record would enumerate it.
`stringCamelCase` (from `@polkadot/util`, outside the excerpt) is passed in as
an abstract function `camel : String → String`.
-/

set_option autoImplicit false

namespace StructCodec

universe u

/-- A live codec instance: the capabilities of the Codec contract that
`Struct.ts` actually invokes on its children.  `toU8a` receives the bare
option forwarded by the parent (`undefined`, `true` or `false` in JS, hence
`Option Bool`). -/
structure CodecVal where
  toU8a : Option Bool → List Nat
  encodedLength : Nat
  isEmpty : Bool
  toRawType : String

/-- A codec class over raw input values `α`: `new Type(registry, value)` is
`construct (some value)`, `new Type(registry)` is `construct none`; `name`
is the JS `Type.name`; `instOf a` is the `a instanceof Type` test, yielding
the existing instance when it holds. -/
structure CodecClass (α : Type u) where
  name : String
  instOf : α → Option CodecVal
  construct : Option α → Except String CodecVal

/-- Association-list lookup by key, i.e. JS `value[k]` / `Map.get(k)` on an
object or map whose properties are listed in insertion order. -/
def getKey {β : Type u} : List (String × β) → String → Option β
  | [], _ => none
  | (k₁, v) :: rest, k => if k₁ = k then some v else getKey rest k

/-- JS `Map` insertion: setting an existing key replaces its value in place,
a new key is appended. -/
def jsMapInsert {β : Type u} : List (String × β) → String → β → List (String × β)
  | [], k, v => [(k, v)]
  | (k₁, v₁) :: rest, k, v =>
    if k₁ = k then (k, v) :: rest else (k₁, v₁) :: jsMapInsert rest k v

/-- JS `new Map(iterable)`: insert every pair in order (`super(decoded)` in the
`Struct` constructor). -/
def jsMapOfList {β : Type u} (l : List (String × β)) : List (String × β) :=
  l.foldl (fun acc kv => jsMapInsert acc kv.1 kv.2) []

/-- The non-u8a input shapes `decodeStructFromObject` receives: a plain object
(property list in key order), an array, or a JS `Map`. -/
inductive ObjInput (α : Type u) where
  | obj (fields : List (String × α))
  | arr (elems : List α)
  | map (fields : List (String × α))

/-- `jsonMap.get(key) || key`: the declared alias for a field key, falling back
to the key itself when there is no alias (or the alias is the falsy empty
string). -/
def jsonKeyOf (jsonMap : List (String × String)) (key : String) : String :=
  match getKey jsonMap key with
  | some jk => if jk = "" then key else jk
  | none => key

/-- The camel-cased view of an object (`jsonObj` in `decodeStructFromObject`):
`jsonObj[stringCamelCase(k)] = v` assigned over the entries in order, so on a
camel-case collision the later entry wins — hence lookup in the reversed
mapped list. -/
def camelLookup {α : Type u} (camel : String → String) (fields : List (String × α))
    (jsonKey : String) : Option α :=
  getKey (fields.map (fun kv => (camel kv.1, kv.2))).reverse jsonKey

/-- The `assign` value computed for the field at position `i` with translated
key `jsonKey`, per input shape:
array `value[i]`; map `jsonKey && value.get(jsonKey)`; object
`jsonKey && value[jsonKey]` with the camel-case fallback when that is
`undefined`.  The JS guard `jsonKey && …` short-circuits to the empty string
itself when `jsonKey = ""` (a value the abstract `α` cannot carry); the
theorems below only speak about nonempty keys, where the embedding and the
source agree. -/
def structAssign {α : Type u} (camel : String → String) (value : ObjInput α)
    (i : Nat) (jsonKey : String) : Option α :=
  match value with
  | .arr xs => xs.get? i
  | .map fs => if jsonKey = "" then none else getKey fs jsonKey
  | .obj fs =>
    if jsonKey = "" then none
    else
      match getKey fs jsonKey with
      | some v => some v
      | none => camelLookup camel fs jsonKey

/-- `assign instanceof Type ? assign : new Type(registry, assign)` — reuse the
value when it already is an instance of the field's class, otherwise construct
one from it (from `undefined` when the lookup found nothing). -/
def constructChild {α : Type u} (T : CodecClass α) (assign : Option α) :
    Except String CodecVal :=
  match assign with
  | some a =>
    match T.instOf a with
    | some c => .ok c
    | none => T.construct (some a)
  | none => T.construct none

/-- The `type` used in the wrapped error message:
`new Type(registry).toRawType()`, falling back to `Type.name` when that
construction itself throws. -/
def childTypeName {α : Type u} (T : CodecClass α) : String :=
  match T.construct none with
  | .ok c => c.toRawType
  | .error _ => T.name

/-- `Struct: failed on ${jsonKey}: ${type}:: ${message}` -/
def wrapError (jsonKey typeName msg : String) : String :=
  "Struct: failed on " ++ jsonKey ++ ": " ++ typeName ++ ":: " ++ msg

/-- The field loop of `decodeStructFromObject`: for each declared key in order,
compute `jsonKey`, look the value up per the input shape, build the child
(`constructChild`), and on a child exception re-throw it wrapped with the
field's `jsonKey` and the child's type name.  `i` is the running index
(used by the array branch). -/
def decodeFields {α : Type u} (camel : String → String) (value : ObjInput α)
    (jsonMap : List (String × String)) :
    List (String × CodecClass α) → Nat → Except String (List (String × CodecVal))
  | [], _ => .ok []
  | (key, T) :: rest, i =>
    let jsonKey := jsonKeyOf jsonMap key
    match constructChild T (structAssign camel value i jsonKey) with
    | .ok c => (decodeFields camel value jsonMap rest (i + 1)).map (fun tl => (key, c) :: tl)
    | .error msg => .error (wrapError jsonKey (childTypeName T) msg)

/-- `Struct: Unable to map ${...} array to object with known keys ${keys}` —
the arity assertion's message (the embedding omits the `stringify(value)` of
the raw input, which the abstract `α` cannot print). -/
def arrayArityError {α : Type u} (Types : List (String × CodecClass α)) : String :=
  "Struct: Unable to map array to object with known keys " ++
    String.intercalate ", " (Types.map Prod.fst)

/-- `decodeStructFromObject`: assert the array arity, then run the field loop.
(The first assertion — that the value is an object, map or array — is enforced
by the type `ObjInput α`.) -/
def decodeStructFromObject {α : Type u} (camel : String → String)
    (Types : List (String × CodecClass α)) (value : ObjInput α)
    (jsonMap : List (String × String)) : Except String (List (String × CodecVal)) :=
  match value with
  | .arr xs =>
    if xs.length = Types.length then decodeFields camel value jsonMap Types 0
    else .error (arrayArityError Types)
  | _ => decodeFields camel value jsonMap Types 0

/-- The inputs the `Struct` constructor handles other than `Uint8Array`/hex
(whose byte-decoding path no claim here exercises): another already
constructed `Struct` (passed through as its entry iterable), or an
object/array/map. -/
inductive StructInput (α : Type u) where
  | fromInstance (entries : List (String × CodecVal))
  | fromObj (value : ObjInput α)

/-- The constructed `Struct` value: the `Map` entries (`super(decoded)`), the
resolved `#Types` and the `#jsonMap`. -/
structure Struct (α : Type u) where
  entries : List (String × CodecVal)
  Types : List (String × CodecClass α)
  jsonMap : List (String × String)

/-- The `Struct` constructor on the modelled inputs: another `Struct` is taken
as its entry iterable with no child construction at all; `null`/`undefined`
becomes `{}` (`value || {}`) and goes through `decodeStructFromObject` like
any object/array/map. -/
def Struct.construct {α : Type u} (camel : String → String)
    (Types : List (String × CodecClass α)) (value : Option (StructInput α))
    (jsonMap : List (String × String)) : Except String (Struct α) :=
  match value with
  | some (.fromInstance e) => .ok ⟨jsMapOfList e, Types, jsonMap⟩
  | some (.fromObj v) =>
    (decodeStructFromObject camel Types v jsonMap).map (fun raw => ⟨jsMapOfList raw, Types, jsonMap⟩)
  | none =>
    (decodeStructFromObject camel Types (.obj []) jsonMap).map
      (fun raw => ⟨jsMapOfList raw, Types, jsonMap⟩)

namespace Struct

variable {α : Type u}

/-- `defKeys`: `Object.keys(this.#Types)`. -/
def defKeys (s : Struct α) : List String :=
  s.Types.map Prod.fst

/-- `get(name)`: the `Map` lookup. -/
def get (s : Struct α) (name : String) : Option CodecVal :=
  getKey s.entries name

/-- `toArray()`: `[...this.values()]`. -/
def toArray (s : Struct α) : List CodecVal :=
  s.entries.map Prod.snd

/-- `getAtIndex(index)`: `this.toArray()[index]` (`undefined` out of range). -/
def getAtIndex (s : Struct α) (index : Nat) : Option CodecVal :=
  s.toArray.get? index

/-- `isEmpty`: false as soon as one value is non-empty, else true. -/
def isEmpty (s : Struct α) : Bool :=
  s.entries.all (fun kv => kv.2.isEmpty)

/-- `encodedLength`: the sum of the values' `encodedLength`s. -/
def encodedLength (s : Struct α) : Nat :=
  (s.entries.map (fun kv => kv.2.encodedLength)).sum

/-- `BareOpts`: `undefined`, a boolean, or a per-key record of booleans. -/
inductive BareOpts where
  | undef
  | bool (b : Bool)
  | record (m : List (String × Bool))

/-- `!isBare || isBoolean(isBare) ? isBare : isBare[k]` — what a child's
`toU8a` receives. -/
def childBare : BareOpts → String → Option Bool
  | .undef, _ => none
  | .bool b, _ => some b
  | .record m, k => getKey m k

/-- `toU8a(isBare)`: concatenate each entry's `v.toU8a(...)` over the `Map`
iteration order.  (The JS guard `v && isFunction(v.toU8a)` always holds for a
`CodecVal`.) -/
def toU8a (s : Struct α) (isBare : BareOpts) : List Nat :=
  (s.entries.map (fun kv => kv.2.toU8a (childBare isBare kv.1))).flatten

end Struct

/-! ## Concrete gadgets used by witnesses and counterexamples -/

/-- A child class over `Nat` inputs for concrete tests: encodes its input as a
single byte, `7` bytes when constructed from `undefined`. -/
def natClass : CodecClass Nat :=
  { name := "natClass"
    instOf := fun _ => none
    construct := fun a? =>
      .ok { toU8a := fun _ => [a?.getD 7]
            encodedLength := 1
            isEmpty := a?.getD 7 == 7
            toRawType := "u8" } }

/-- A concrete codec value honouring `encodedLength = length(toU8a)`. -/
def byteCodec (n : Nat) : CodecVal :=
  { toU8a := fun _ => [n]
    encodedLength := 1
    isEmpty := n == 0
    toRawType := "u8" }

/-- A concrete two-field struct used by the witnesses. -/
def structW : Struct Nat :=
  { entries := [("a", byteCodec 3), ("b", byteCodec 4)]
    Types := []
    jsonMap := [] }

/-- The codec `natClass` builds from an absent input. -/
def natDefault : CodecVal :=
  { toU8a := fun _ => [7]
    encodedLength := 1
    isEmpty := true
    toRawType := "u8" }

/-- The declared field classes used by the iteration-order witness. -/
def typesW : List (String × CodecClass Nat) :=
  [("a", natClass), ("b", natClass)]

/-- A child codec class that rejects the input `0` with an exception, used to
exercise the error-wrapping path. -/
def failClass : CodecClass Nat :=
  { name := "failClass"
    instOf := fun _ => none
    construct := fun a? =>
      match a? with
      | some 0 => .error "boom"
      | some n => .ok (byteCodec n)
      | none => .ok { toU8a := fun _ => [0]
                      encodedLength := 1
                      isEmpty := true
                      toRawType := "Fail" } }

/-- A camel-case translation with the collisions the real `stringCamelCase`
has: both `a_b` and `a-b` map to `aB`. -/
def camelCollide : String → String :=
  fun s => if s = "a_b" then "aB" else if s = "a-b" then "aB" else s

/-- The struct the lookup witness constructs. -/
def structLookupW : Struct Nat :=
  { entries := [("a", byteCodec 5)]
    Types := [("a", natClass)]
    jsonMap := [] }

end StructCodec

namespace TextCodec

/-- Modelled from the spec: `src/` does not contain the Text codec itself (only
its test file), so the UTF-8 byte size of a character is taken from the spec's
"byteLength must count UTF-8 bytes": 1 byte below U+0080, 2 below U+0800,
3 below U+10000, else 4. -/
def charUtf8Size (c : Char) : Nat :=
  if c.val < 0x80 then 1
  else if c.val < 0x800 then 2
  else if c.val < 0x10000 then 3
  else 4

/-- Modelled from the spec: the UTF-8 byte count of a string (sum over its
characters). -/
def strUtf8Size (s : String) : Nat :=
  (s.data.map charUtf8Size).sum

/-- Modelled from the spec: the byte count of the compact ("smallest valid
size class") encoding of `n` — 1 byte below 2^6, 2 below 2^14, 4 below 2^30,
else a mode byte plus the minimal big-endian byte count of `n`. -/
def compactByteCount (n : Nat) : Nat :=
  if n < 2 ^ 6 then 1
  else if n < 2 ^ 14 then 2
  else if n < 2 ^ 30 then 4
  else 1 + (Nat.log2 n / 8 + 1)

/-- Modelled from the spec: the Text codec wraps a string value (`src/` holds
only the Text test file, not `Text.ts`). -/
structure Text where
  value : String

/-- Modelled from the spec: Text construction from a plain string keeps it,
and "a `null`/absent input decodes to an empty text value". -/
def Text.ofInput : Option String → Text
  | none => ⟨""⟩
  | some s => ⟨s⟩

/-- Modelled from the spec: Text encodes as a compact length followed by the
UTF-8 bytes, so `encodedLength` is the compact-length byte count plus the
UTF-8 byte count. -/
def Text.encodedLength (t : Text) : Nat :=
  compactByteCount (strUtf8Size t.value) + strUtf8Size t.value

/-- The logical length of a Text value: its character count. -/
def Text.length (t : Text) : Nat :=
  t.value.length

/-- `toString()` of a Text value. -/
def Text.toString (t : Text) : String :=
  t.value

end TextCodec

namespace StructCodec

universe u

/-! ## Lemmas about the association-list primitives -/

theorem getKey_eq_none_iff {β : Type u} (l : List (String × β)) (k : String) :
    getKey l k = none ↔ k ∉ l.map Prod.fst := by
  induction l with
  | nil => simp [getKey]
  | cons kv rest ih =>
    obtain ⟨k₁, v₁⟩ := kv
    by_cases h : k₁ = k
    · subst h
      simp [getKey]
    · simp [getKey, h, ih, Ne.symm h]

theorem getKey_mem {β : Type u} {l : List (String × β)} {k : String} {v : β}
    (h : getKey l k = some v) : (k, v) ∈ l := by
  induction l with
  | nil => simp [getKey] at h
  | cons kv rest ih =>
    obtain ⟨k₁, v₁⟩ := kv
    by_cases hk : k₁ = k
    · subst hk
      simp [getKey] at h
      simp [h]
    · simp [getKey, hk] at h
      exact List.mem_cons_of_mem _ (ih h)

theorem getKey_eq_some_of_mem {β : Type u} {l : List (String × β)} {k : String} {v : β}
    (hnd : (l.map Prod.fst).Nodup) (hm : (k, v) ∈ l) : getKey l k = some v := by
  induction l with
  | nil => simp at hm
  | cons kv rest ih =>
    obtain ⟨k₁, v₁⟩ := kv
    simp only [List.map_cons, List.nodup_cons] at hnd
    rcases List.mem_cons.mp hm with h | h
    · obtain ⟨h₁, h₂⟩ := Prod.mk.injEq .. ▸ h
      simp [getKey, h₁.symm, h₂]
    · have hne : k₁ ≠ k := by
        rintro rfl
        exact hnd.1 (List.mem_map.mpr ⟨(k₁, v), h, rfl⟩)
      simp [getKey, hne, ih hnd.2 h]

theorem getKey_perm {β : Type u} {l₁ l₂ : List (String × β)}
    (hnd : (l₁.map Prod.fst).Nodup) (hp : l₁.Perm l₂) (k : String) :
    getKey l₁ k = getKey l₂ k := by
  cases h : getKey l₁ k with
  | none =>
    symm
    rw [getKey_eq_none_iff] at h ⊢
    exact fun hm => h ((hp.map Prod.fst).mem_iff.mpr hm)
  | some v =>
    exact (getKey_eq_some_of_mem (((hp.map Prod.fst).nodup_iff).mp hnd)
      (hp.mem_iff.mp (getKey_mem h))).symm

theorem jsMapInsert_of_not_mem {β : Type u} {acc : List (String × β)} {k : String}
    (v : β) (h : k ∉ acc.map Prod.fst) : jsMapInsert acc k v = acc ++ [(k, v)] := by
  induction acc with
  | nil => rfl
  | cons kv rest ih =>
    obtain ⟨k₁, v₁⟩ := kv
    simp only [List.map_cons, List.mem_cons, not_or] at h
    have hne : k₁ ≠ k := fun hh => h.1 hh.symm
    simp [jsMapInsert, hne, ih h.2]

theorem jsMapOfList_foldl {β : Type u} (l acc : List (String × β))
    (h : ((acc ++ l).map Prod.fst).Nodup) :
    l.foldl (fun acc kv => jsMapInsert acc kv.1 kv.2) acc = acc ++ l := by
  induction l generalizing acc with
  | nil => simp
  | cons kv rest ih =>
    obtain ⟨k, v⟩ := kv
    have hk : k ∉ acc.map Prod.fst := by
      simp only [List.map_append, List.nodup_append] at h
      exact fun hm => h.2.2 hm (by simp)
    have hstep : jsMapInsert acc k v = acc ++ [(k, v)] := jsMapInsert_of_not_mem v hk
    simp only [List.foldl_cons, hstep]
    have h' : (((acc ++ [(k, v)]) ++ rest).map Prod.fst).Nodup := by
      simpa [List.append_assoc] using h
    simpa [List.append_assoc] using ih (acc ++ [(k, v)]) h'

theorem jsMapOfList_of_nodup {β : Type u} {l : List (String × β)}
    (h : (l.map Prod.fst).Nodup) : jsMapOfList l = l := by
  simpa using jsMapOfList_foldl l [] (by simpa using h)

/-! ## Characterizations of the field-decoding loop -/

/-- Success case of the field loop: the produced keys are the declared keys in
declared order, and the `j`-th entry holds the child built from the `j`-th
declared class applied to that field's looked-up `assign`. -/
theorem decodeFields_ok {α : Type u} {camel : String → String} {value : ObjInput α}
    {jsonMap : List (String × String)} :
    ∀ {Types : List (String × CodecClass α)} {i₀ : Nat} {raw : List (String × CodecVal)},
      decodeFields camel value jsonMap Types i₀ = .ok raw →
      raw.map Prod.fst = Types.map Prod.fst ∧
      ∀ j k T, Types.get? j = some (k, T) →
        ∃ c, raw.get? j = some (k, c) ∧
          constructChild T (structAssign camel value (i₀ + j) (jsonKeyOf jsonMap k)) = .ok c
  | [], i₀, raw, h => by
    simp only [decodeFields] at h
    cases h
    exact ⟨rfl, by intro j k T h; simp at h⟩
  | (key, T) :: rest, i₀, raw, h => by
    simp only [decodeFields] at h
    cases hc : constructChild T (structAssign camel value i₀ (jsonKeyOf jsonMap key)) with
    | error msg => rw [hc] at h; cases h
    | ok c =>
      rw [hc] at h
      cases htl : decodeFields camel value jsonMap rest (i₀ + 1) with
      | error msg => rw [htl] at h; cases h
      | ok tl =>
        rw [htl] at h
        cases h
        obtain ⟨ihkeys, ihget⟩ := decodeFields_ok htl
        refine ⟨by simp [ihkeys], ?_⟩
        intro j k T' hj
        cases j with
        | zero =>
          obtain ⟨h₁, h₂⟩ := Prod.mk.injEq .. ▸ Option.some.injEq .. ▸ hj
          subst h₁; subst h₂
          exact ⟨c, rfl, by simpa using hc⟩
        | succ j =>
          obtain ⟨c', hraw, hcon⟩ := ihget j k T' (by simpa using hj)
          exact ⟨c', by simpa using hraw, by
            have : i₀ + 1 + j = i₀ + (j + 1) := by omega
            rwa [this] at hcon⟩

/-- Error case of the field loop: any surfaced error is a child construction
error, re-thrown wrapped with that field's translated key and the child's
type name. -/
theorem decodeFields_error {α : Type u} {camel : String → String} {value : ObjInput α}
    {jsonMap : List (String × String)} :
    ∀ {Types : List (String × CodecClass α)} {i₀ : Nat} {e : String},
      decodeFields camel value jsonMap Types i₀ = .error e →
      ∃ j k T msg, Types.get? j = some (k, T) ∧
        constructChild T (structAssign camel value (i₀ + j) (jsonKeyOf jsonMap k)) = .error msg ∧
        e = wrapError (jsonKeyOf jsonMap k) (childTypeName T) msg
  | [], _, _, h => by simp [decodeFields] at h
  | (key, T) :: rest, i₀, e, h => by
    simp only [decodeFields] at h
    cases hc : constructChild T (structAssign camel value i₀ (jsonKeyOf jsonMap key)) with
    | error msg =>
      rw [hc] at h
      cases h
      exact ⟨0, key, T, msg, rfl, by simpa using hc, rfl⟩
    | ok c =>
      rw [hc] at h
      cases htl : decodeFields camel value jsonMap rest (i₀ + 1) with
      | ok tl => rw [htl] at h; cases h
      | error msg =>
        rw [htl] at h
        cases h
        obtain ⟨j, k, T', msg', hj, hcon, hmsg⟩ := decodeFields_error htl
        refine ⟨j + 1, k, T', msg', by simpa using hj, ?_, hmsg⟩
        have : i₀ + 1 + j = i₀ + (j + 1) := by omega
        rwa [this] at hcon

/-- The field loop is determined by the per-index `assign` values: two inputs
that yield the same lookups decode identically. -/
theorem decodeFields_congr {α : Type u} {camel : String → String}
    {v₁ v₂ : ObjInput α} (jsonMap : List (String × String))
    (hassign : ∀ i jk, structAssign camel v₁ i jk = structAssign camel v₂ i jk) :
    ∀ (Types : List (String × CodecClass α)) (i₀ : Nat),
      decodeFields camel v₁ jsonMap Types i₀ = decodeFields camel v₂ jsonMap Types i₀
  | [], _ => rfl
  | (key, T) :: rest, i₀ => by
    simp only [decodeFields, hassign i₀ (jsonKeyOf jsonMap key),
      decodeFields_congr jsonMap hassign rest (i₀ + 1)]

/-- On an empty object (the `value || {}` path of a `null` construction) every
lookup misses, so every field is built from `undefined`, i.e. as the field
type's default. -/
theorem decodeFields_defaults {α : Type u} (camel : String → String)
    (jsonMap : List (String × String)) {defOf : String × CodecClass α → CodecVal} :
    ∀ {Types : List (String × CodecClass α)} (i₀ : Nat),
      (∀ kv ∈ Types, kv.2.construct none = .ok (defOf kv)) →
      decodeFields camel (.obj []) jsonMap Types i₀ =
        .ok (Types.map (fun kv => (kv.1, defOf kv)))
  | [], _, _ => rfl
  | (key, T) :: rest, i₀, h => by
    have hassign : structAssign camel (.obj ([] : List (String × α))) i₀
        (jsonKeyOf jsonMap key) = none := by
      simp only [structAssign, camelLookup, getKey]
      split <;> rfl
    have hhead : constructChild T (structAssign camel (ObjInput.obj []) i₀
        (jsonKeyOf jsonMap key)) = .ok (defOf (key, T)) := by
      rw [hassign]
      exact h (key, T) (by simp)
    simp only [decodeFields, hhead,
      decodeFields_defaults camel jsonMap (i₀ + 1) (fun kv hkv => h kv (List.mem_cons_of_mem _ hkv)),
      Except.map, List.map_cons]

/-! ## Claim theorems -/

/-- Helper: the length of the concatenated child encodings is the sum of the
children's `encodedLength`s, provided each child honours the codec contract
`encodedLength = length(toU8a)`. -/
theorem sum_encodedLength_eq_length_flatten :
    ∀ (l : List (String × CodecVal)),
      (∀ kv ∈ l, kv.2.encodedLength = (kv.2.toU8a none).length) →
      (l.map (fun kv => kv.2.encodedLength)).sum =
        ((l.map (fun kv => kv.2.toU8a (Struct.childBare .undef kv.1))).flatten).length
  | [], _ => rfl
  | kv :: rest, h => by
    have hrest := sum_encodedLength_eq_length_flatten rest
      (fun x hx => h x (List.mem_cons_of_mem _ hx))
    simp only [List.map_cons, List.flatten_cons, List.sum_cons, List.length_append,
      h kv (List.mem_cons_self kv rest), hrest]
    rfl

/-- C2: for every constructed Struct instance whose fields honour the codec
contract (`encodedLength = length(toU8a)`), the Struct's `encodedLength` is
the sum of its fields' `encodedLength`s and equals the byte length of
`toU8a()`. -/
theorem struct_encodedLength_eq_sum_and_toU8a_length {α : Type u} (s : Struct α)
    (h : ∀ kv ∈ s.entries, kv.2.encodedLength = (kv.2.toU8a none).length) :
    s.encodedLength = (s.entries.map (fun kv => kv.2.encodedLength)).sum ∧
    s.encodedLength = (s.toU8a .undef).length :=
  ⟨rfl, sum_encodedLength_eq_length_flatten s.entries h⟩

/-- Witness for C2 at a concrete struct. -/
theorem struct_encodedLength_eq_sum_and_toU8a_length_witness :
    (∀ kv ∈ structW.entries, kv.2.encodedLength = (kv.2.toU8a none).length) ∧
    (structW.encodedLength = (structW.entries.map (fun kv => kv.2.encodedLength)).sum ∧
      structW.encodedLength = (structW.toU8a .undef).length) :=
  ⟨by decide, struct_encodedLength_eq_sum_and_toU8a_length structW (by decide)⟩

/-- C8: a constructed Struct is `isEmpty` exactly when every one of its fields
is empty. -/
theorem struct_isEmpty_iff_all_fields_empty {α : Type u} (s : Struct α) :
    s.isEmpty = true ↔ ∀ kv ∈ s.entries, kv.2.isEmpty = true := by
  simp [Struct.isEmpty, List.all_eq_true]

/-- C3: constructing a struct from an array-shaped input whose length differs
from the declared field count fails synchronously with the construction error,
and an array of exactly matching length is assigned positionally — the `i`-th
element is the input the `i`-th declared field's codec is built from. -/
theorem struct_array_arity_and_positional {α : Type u} (camel : String → String)
    (Types : List (String × CodecClass α)) (jsonMap : List (String × String))
    (xs : List α) (hnd : (Types.map Prod.fst).Nodup) :
    (xs.length ≠ Types.length →
      Struct.construct camel Types (some (.fromObj (.arr xs))) jsonMap =
        .error (arrayArityError Types)) ∧
    (∀ s, Struct.construct camel Types (some (.fromObj (.arr xs))) jsonMap = .ok s →
      ∀ i k T x, Types.get? i = some (k, T) → xs.get? i = some x →
        ∃ c, constructChild T (some x) = .ok c ∧ s.entries.get? i = some (k, c)) := by
  constructor
  · intro hne
    simp [Struct.construct, decodeStructFromObject, hne, Except.map]
  · intro s hs i k T x hT hx
    simp only [Struct.construct, decodeStructFromObject] at hs
    by_cases hlen : xs.length = Types.length
    · rw [if_pos hlen] at hs
      cases hraw : decodeFields camel (ObjInput.arr xs) jsonMap Types 0 with
      | error e => rw [hraw] at hs; cases hs
      | ok raw =>
        rw [hraw] at hs
        cases hs
        obtain ⟨hkeys, hget⟩ := decodeFields_ok hraw
        obtain ⟨c, hrawi, hcon⟩ := hget i k T hT
        have hentries : jsMapOfList raw = raw :=
          jsMapOfList_of_nodup (hkeys ▸ hnd)
        refine ⟨c, ?_, by simpa [hentries] using hrawi⟩
        have hassign : structAssign camel (ObjInput.arr xs) (0 + i)
            (jsonKeyOf jsonMap k) = some x := by
          simpa [structAssign] using hx
        rwa [hassign] at hcon
    · rw [if_neg hlen] at hs
      cases hs

/-- Witness for C3 at a concrete struct type: the arity failure and the
positional assignment. -/
theorem struct_array_arity_and_positional_witness :
    (([("a", natClass), ("b", natClass)].map
        (Prod.fst (α := String) (β := CodecClass Nat))).Nodup) ∧
    ((([4] : List Nat).length ≠ 2 →
      Struct.construct id [("a", natClass), ("b", natClass)] (some (.fromObj (.arr [4]))) [] =
        .error (arrayArityError [("a", natClass), ("b", natClass)])) ∧
    (∀ s, Struct.construct id [("a", natClass), ("b", natClass)]
        (some (.fromObj (.arr [4]))) [] = .ok s →
      ∀ i k T x, [("a", natClass), ("b", natClass)].get? i = some (k, T) →
        ([4] : List Nat).get? i = some x →
        ∃ c, constructChild T (some x) = .ok c ∧ s.entries.get? i = some (k, c))) :=
  ⟨by simp, struct_array_arity_and_positional id [("a", natClass), ("b", natClass)] [] [4]
    (by simp)⟩

/-- Helper: a successful `decodeStructFromObject` is a successful field loop
(the array branch passed its arity assertion). -/
theorem decodeStructFromObject_ok {α : Type u} {camel : String → String}
    {Types : List (String × CodecClass α)} {v : ObjInput α}
    {jsonMap : List (String × String)} {raw : List (String × CodecVal)}
    (h : decodeStructFromObject camel Types v jsonMap = .ok raw) :
    decodeFields camel v jsonMap Types 0 = .ok raw := by
  cases v with
  | obj fs => exact h
  | map fs => exact h
  | arr xs =>
    by_cases hl : xs.length = Types.length
    · rw [decodeStructFromObject, if_pos hl] at h
      exact h
    · rw [decodeStructFromObject, if_neg hl] at h
      cases h

/-- C5: constructing a Struct of the same shape from an already-constructed
Struct reuses the existing child codec instances verbatim — the result's
entries are the given entries for any child classes whatsoever (so no child
construction, encoding or decoding is consulted) — and the resulting struct
equals the original. -/
theorem struct_from_instance_reuses_children {α : Type u} (camel : String → String)
    (s : Struct α) (hnd : (s.entries.map Prod.fst).Nodup) :
    (∀ (Types : List (String × CodecClass α)) (jm : List (String × String)),
      (Struct.construct camel Types (some (.fromInstance s.entries)) jm).map Struct.entries =
        .ok s.entries) ∧
    Struct.construct camel s.Types (some (.fromInstance s.entries)) s.jsonMap = .ok s := by
  obtain ⟨e, T, j⟩ := s
  have he : jsMapOfList e = e := jsMapOfList_of_nodup hnd
  exact ⟨fun Types jm => by simp [Struct.construct, he, Except.map],
    by simp [Struct.construct, he]⟩

/-- Witness for C5 at a concrete struct. -/
theorem struct_from_instance_reuses_children_witness :
    ((structW.entries.map Prod.fst).Nodup) ∧
    Struct.construct id structW.Types (some (.fromInstance structW.entries)) structW.jsonMap =
      .ok structW :=
  ⟨by decide, (struct_from_instance_reuses_children id structW (by decide)).2⟩

/-- C7: a Struct constructed with no value succeeds and holds, at every
declared key in order, the field type's default (the codec built from an
absent input); and a Text constructed from `null` is the empty string. -/
theorem struct_null_yields_defaults_and_text_null_empty {α : Type u}
    (camel : String → String) (Types : List (String × CodecClass α))
    (jm : List (String × String)) (defOf : String × CodecClass α → CodecVal)
    (hnd : (Types.map Prod.fst).Nodup)
    (hdef : ∀ kv ∈ Types, kv.2.construct none = .ok (defOf kv)) :
    Struct.construct camel Types none jm =
      .ok ⟨Types.map (fun kv => (kv.1, defOf kv)), Types, jm⟩ ∧
    TextCodec.Text.ofInput none = ⟨""⟩ ∧
    (TextCodec.Text.ofInput none).toString = "" := by
  refine ⟨?_, rfl, rfl⟩
  have hkeys : ((Types.map (fun kv => (kv.1, defOf kv))).map Prod.fst).Nodup := by
    simpa [List.map_map, Function.comp] using hnd
  simp [Struct.construct, decodeStructFromObject,
    decodeFields_defaults camel jm 0 hdef, Except.map, jsMapOfList_of_nodup hkeys]

/-- Witness for C7 at a concrete struct type. -/
theorem struct_null_yields_defaults_and_text_null_empty_witness :
    (∀ kv ∈ [("a", natClass)], kv.2.construct none = .ok natDefault) ∧
    Struct.construct id [("a", natClass)] none [] =
      .ok ⟨[("a", natDefault)], [("a", natClass)], []⟩ :=
  ⟨fun kv hkv => by rcases List.mem_singleton.mp hkv with rfl; rfl,
    (struct_null_yields_defaults_and_text_null_empty id [("a", natClass)] []
      (fun _ => natDefault) (by simp)
      (fun kv hkv => by rcases List.mem_singleton.mp hkv with rfl; rfl)).1⟩

/-- C10: for a Struct constructed from an object/array/map input, iteration
order is the declared field order — `defKeys` is the declared keys in
declaration order, the entry keys equal `defKeys`, `toArray` is the entry
codecs in that order, and `getAtIndex i` is defined and returns the codec
stored at the `i`-th declared key. -/
theorem struct_iteration_order {α : Type u} (camel : String → String)
    (Types : List (String × CodecClass α)) (jm : List (String × String))
    (v : ObjInput α) (s : Struct α)
    (hnd : (Types.map Prod.fst).Nodup)
    (h : Struct.construct camel Types (some (.fromObj v)) jm = .ok s) :
    s.defKeys = Types.map Prod.fst ∧
    s.entries.map Prod.fst = s.defKeys ∧
    s.toArray = s.entries.map Prod.snd ∧
    ∀ i k T, Types.get? i = some (k, T) →
      (s.getAtIndex i).isSome = true ∧ s.getAtIndex i = s.get k := by
  simp only [Struct.construct] at h
  cases hd : decodeStructFromObject camel Types v jm with
  | error e => rw [hd] at h; cases h
  | ok raw =>
    rw [hd] at h
    cases h
    obtain ⟨hkeys, hget⟩ := decodeFields_ok (decodeStructFromObject_ok hd)
    have hrawnd : (raw.map Prod.fst).Nodup := by rw [hkeys]; exact hnd
    have he : jsMapOfList raw = raw := jsMapOfList_of_nodup hrawnd
    refine ⟨rfl, by simpa [Struct.defKeys, he] using hkeys, rfl, ?_⟩
    intro i k T hT
    obtain ⟨c, hraw, _⟩ := hget i k T hT
    have hat : Struct.getAtIndex ⟨jsMapOfList raw, Types, jm⟩ i = some c := by
      simp only [Struct.getAtIndex, Struct.toArray, he]
      rw [List.get?_map, hraw]
      rfl
    refine ⟨by simp [hat], ?_⟩
    rw [hat]
    have hmem : (k, c) ∈ raw := List.get?_mem hraw
    simp [Struct.get, he, getKey_eq_some_of_mem hrawnd hmem]

/-- Witness for C10 at a concrete struct constructed from an object whose key
order differs from the declared order. -/
theorem struct_iteration_order_witness :
    ((typesW.map Prod.fst).Nodup) ∧
    Struct.construct id typesW (some (.fromObj (.obj [("b", 2), ("a", 1)]))) [] =
      .ok ⟨[("a", byteCodec 1), ("b", byteCodec 2)], typesW, []⟩ ∧
    (Struct.getAtIndex ⟨[("a", byteCodec 1), ("b", byteCodec 2)], typesW, []⟩ 1).isSome = true ∧
    Struct.getAtIndex ⟨[("a", byteCodec 1), ("b", byteCodec 2)], typesW, []⟩ 1 =
      Struct.get ⟨[("a", byteCodec 1), ("b", byteCodec 2)], typesW, []⟩ "b" :=
  ⟨by simp [typesW], rfl,
    (struct_iteration_order id typesW [] (.obj [("b", 2), ("a", 1)])
      ⟨[("a", byteCodec 1), ("b", byteCodec 2)], typesW, []⟩ (by simp [typesW]) rfl).2.2.2
      1 "b" natClass rfl⟩

/-- Helper: when the array arity assertion passes (vacuous for non-array
input), `decodeStructFromObject` is the field loop. -/
theorem decodeStructFromObject_eq_decodeFields {α : Type u} {camel : String → String}
    {Types : List (String × CodecClass α)} {v : ObjInput α} {jm : List (String × String)}
    (harr : ∀ xs, v = .arr xs → xs.length = Types.length) :
    decodeStructFromObject camel Types v jm = decodeFields camel v jm Types 0 := by
  cases v with
  | obj fs => rfl
  | map fs => rfl
  | arr xs => simp [decodeStructFromObject, harr xs rfl]

/-- Helper: when the first failing field is at position `j` (every earlier
field constructs fine), the field loop surfaces exactly that child's error
wrapped with the field's translated key and the child's type name. -/
theorem decodeFields_first_error {α : Type u} {camel : String → String} {v : ObjInput α}
    {jm : List (String × String)} {msg : String} :
    ∀ (Types : List (String × CodecClass α)) (i₀ j : Nat) (k : String) (T : CodecClass α),
      Types.get? j = some (k, T) →
      constructChild T (structAssign camel v (i₀ + j) (jsonKeyOf jm k)) = .error msg →
      (∀ j' < j, ∀ k' T', Types.get? j' = some (k', T') →
        (constructChild T' (structAssign camel v (i₀ + j') (jsonKeyOf jm k'))).isOk = true) →
      decodeFields camel v jm Types i₀ =
        .error (wrapError (jsonKeyOf jm k) (childTypeName T) msg)
  | [], _, j, k, T, hj, _, _ => by simp at hj
  | (key, T₀) :: rest, i₀, 0, k, T, hj, hfail, _ => by
    obtain ⟨h₁, h₂⟩ := Prod.mk.injEq .. ▸ Option.some.injEq .. ▸ hj
    subst h₁; subst h₂
    simp only [decodeFields]
    rw [Nat.add_zero] at hfail
    rw [hfail]
  | (key, T₀) :: rest, i₀, j + 1, k, T, hj, hfail, hok => by
    have hhead := hok 0 (by omega) key T₀ rfl
    rw [Nat.add_zero] at hhead
    simp only [decodeFields]
    cases hc : constructChild T₀ (structAssign camel v i₀ (jsonKeyOf jm key)) with
    | error m => rw [hc] at hhead; simp [Except.isOk, Except.toBool] at hhead
    | ok c =>
      have htail := decodeFields_first_error rest (i₀ + 1) j k T (by simpa using hj)
        (by rw [show i₀ + 1 + j = i₀ + (j + 1) from by omega]; exact hfail)
        (fun j' hj' k' T' h' => by
          have := hok (j' + 1) (by omega) k' T' (by simpa using h')
          rwa [show i₀ + (j' + 1) = i₀ + 1 + j' from by omega] at this)
      simp only [htail]
      rfl

/-- C4: whenever a child field's codec construction throws during Struct
construction from an object/array/map input (the fields before it
constructing fine, and the arity assertion passing when the input is an
array), the error surfaced by the Struct wraps the child's error with the
failing field's translated name and the child's type. -/
theorem struct_child_error_wrapped {α : Type u} (camel : String → String)
    (Types : List (String × CodecClass α)) (jm : List (String × String))
    (v : ObjInput α) (j : Nat) (k : String) (T : CodecClass α) (msg : String)
    (harr : ∀ xs, v = .arr xs → xs.length = Types.length)
    (hj : Types.get? j = some (k, T))
    (hfail : constructChild T (structAssign camel v j (jsonKeyOf jm k)) = .error msg)
    (hok : ∀ j' < j, ∀ k' T', Types.get? j' = some (k', T') →
      (constructChild T' (structAssign camel v j' (jsonKeyOf jm k'))).isOk = true) :
    Struct.construct camel Types (some (.fromObj v)) jm =
      .error (wrapError (jsonKeyOf jm k) (childTypeName T) msg) := by
  have hfail' : constructChild T (structAssign camel v (0 + j) (jsonKeyOf jm k)) =
      .error msg := by rwa [Nat.zero_add]
  have hok' : ∀ j' < j, ∀ k' T', Types.get? j' = some (k', T') →
      (constructChild T' (structAssign camel v (0 + j') (jsonKeyOf jm k'))).isOk = true := by
    intro j' hj' k' T' h'
    rw [Nat.zero_add]
    exact hok j' hj' k' T' h'
  have hdf := decodeFields_first_error Types 0 j k T hj hfail' hok'
  simp [Struct.construct, decodeStructFromObject_eq_decodeFields harr, hdf, Except.map]

/-- Witness for C4 at a concrete failing field. -/
theorem struct_child_error_wrapped_witness :
    (constructChild failClass (structAssign id (.obj [("a", 1), ("b", 0)]) 1
        (jsonKeyOf [] "b")) = .error "boom") ∧
    Struct.construct id [("a", natClass), ("b", failClass)]
        (some (.fromObj (.obj [("a", 1), ("b", 0)]))) [] =
      .error (wrapError (jsonKeyOf [] "b") (childTypeName failClass) "boom") :=
  ⟨rfl, struct_child_error_wrapped id [("a", natClass), ("b", failClass)] []
    (.obj [("a", 1), ("b", 0)]) 1 "b" failClass "boom"
    (fun _ h => nomatch h) rfl rfl
    (fun j' hj' k' T' h' => by
      obtain rfl : j' = 0 := by omega
      obtain ⟨h₁, h₂⟩ := Prod.mk.injEq .. ▸ Option.some.injEq .. ▸ h'
      subst h₁; subst h₂
      rfl)⟩

/-- Helper: the object-shaped `assign` lookup only depends on the input's
key-to-value mapping: it is invariant under key reordering as long as the
keys — and their camel-cased images, which feed the later-wins fallback
object — are distinct. -/
theorem structAssign_obj_perm {α : Type u} (camel : String → String)
    {fs₁ fs₂ : List (String × α)} (hperm : fs₁.Perm fs₂)
    (hnd : (fs₁.map Prod.fst).Nodup)
    (hcam : (fs₁.map (fun kv => camel kv.1)).Nodup) :
    ∀ (i : Nat) (jk : String),
      structAssign camel (.obj fs₁) i jk = structAssign camel (.obj fs₂) i jk := by
  intro i jk
  by_cases hjk : jk = ""
  · simp [structAssign, hjk]
  · have h₁ : getKey fs₁ jk = getKey fs₂ jk := getKey_perm hnd hperm jk
    have h₂ : camelLookup camel fs₁ jk = camelLookup camel fs₂ jk := by
      apply getKey_perm
      · simp only [List.map_reverse, List.map_map, List.nodup_reverse]
        simpa [Function.comp] using hcam
      · exact ((fs₁.map _).reverse_perm.trans
          ((hperm.map _).trans (fs₂.map _).reverse_perm.symm))
    simp only [structAssign, if_neg hjk, h₁, h₂]

/-- C1 (amended): the Struct's `toU8a()` is the concatenation of its fields'
own `toU8a()` outputs, the entry order being the declared field order; and
the construction — hence the encoding — is invariant under reordering of the
input object's keys, provided no two input keys collide under the camel-case
translation (on collision the later entry wins, so key order matters). -/
theorem struct_toU8a_concat_and_key_order {α : Type u} (camel : String → String)
    (Types : List (String × CodecClass α)) (jm : List (String × String))
    (fs₁ fs₂ : List (String × α)) (s : Struct α)
    (hperm : fs₁.Perm fs₂)
    (hnd : (fs₁.map Prod.fst).Nodup)
    (hcam : (fs₁.map (fun kv => camel kv.1)).Nodup)
    (hTnd : (Types.map Prod.fst).Nodup)
    (h : Struct.construct camel Types (some (.fromObj (.obj fs₁))) jm = .ok s) :
    Struct.construct camel Types (some (.fromObj (.obj fs₂))) jm = .ok s ∧
    s.toU8a .undef = (s.toArray.map (fun c => c.toU8a none)).flatten ∧
    s.entries.map Prod.fst = Types.map Prod.fst := by
  have hcongr := decodeFields_congr jm (structAssign_obj_perm camel hperm hnd hcam) Types 0
  refine ⟨?_, ?_, ?_⟩
  · have heq : Struct.construct camel Types (some (.fromObj (.obj fs₂))) jm =
        Struct.construct camel Types (some (.fromObj (.obj fs₁))) jm := by
      have e₁ : decodeStructFromObject camel Types (ObjInput.obj fs₁) jm =
          decodeFields camel (ObjInput.obj fs₁) jm Types 0 := rfl
      have e₂ : decodeStructFromObject camel Types (ObjInput.obj fs₂) jm =
          decodeFields camel (ObjInput.obj fs₂) jm Types 0 := rfl
      simp only [Struct.construct, e₁, e₂, hcongr]
    rw [heq]
    exact h
  · simp only [Struct.toU8a, Struct.toArray, List.map_map]
    rfl
  · simp only [Struct.construct] at h
    cases hd : decodeStructFromObject camel Types (.obj fs₁) jm with
    | error e => rw [hd] at h; cases h
    | ok raw =>
      rw [hd] at h
      cases h
      obtain ⟨hkeys, _⟩ := decodeFields_ok (decodeStructFromObject_ok hd)
      have hrawnd : (raw.map Prod.fst).Nodup := by rw [hkeys]; exact hTnd
      simpa [jsMapOfList_of_nodup hrawnd] using hkeys

/-- Witness for C1 (amended) at a concrete struct constructed from two key
orders of the same object. -/
theorem struct_toU8a_concat_and_key_order_witness :
    (([("b", 2), ("a", 1)] : List (String × Nat)).Perm [("a", 1), ("b", 2)]) ∧
    (Struct.construct id typesW (some (.fromObj (.obj [("a", 1), ("b", 2)]))) [] =
        .ok ⟨[("a", byteCodec 1), ("b", byteCodec 2)], typesW, []⟩ ∧
      Struct.toU8a ⟨[("a", byteCodec 1), ("b", byteCodec 2)], typesW, []⟩ .undef =
        ((Struct.toArray ⟨[("a", byteCodec 1), ("b", byteCodec 2)], typesW, []⟩).map
          (fun c => c.toU8a none)).flatten ∧
      ([("a", byteCodec 1), ("b", byteCodec 2)] : List (String × CodecVal)).map Prod.fst =
        typesW.map Prod.fst) :=
  ⟨by decide, struct_toU8a_concat_and_key_order id typesW [] [("b", 2), ("a", 1)]
    [("a", 1), ("b", 2)] ⟨[("a", byteCodec 1), ("b", byteCodec 2)], typesW, []⟩
    (by decide) (by decide) (by decide) (by simp [typesW]) rfl⟩

/-- C1 counterexample: two objects that are key-order permutations of each
other (same keys, same values) whose camel-cased keys collide produce
different encodings — the later colliding entry wins in the fallback object,
so the encoding is not independent of input key order. -/
theorem struct_toU8a_key_order_counterexample :
    (([("a_b", 1), ("a-b", 2)] : List (String × Nat)).Perm [("a-b", 2), ("a_b", 1)]) ∧
    (Struct.construct camelCollide [("aB", natClass)]
        (some (.fromObj (.obj [("a_b", 1), ("a-b", 2)]))) []).map
      (fun s => s.toU8a .undef) = .ok [2] ∧
    (Struct.construct camelCollide [("aB", natClass)]
        (some (.fromObj (.obj [("a-b", 2), ("a_b", 1)]))) []).map
      (fun s => s.toU8a .undef) = .ok [1] :=
  ⟨by decide, rfl, rfl⟩

/-- C6 counterexample: for a `Map`-shaped input the camel-case fallback is
not applied — with the direct key absent and the camel-translated key
present (value `3`), the field decodes as the child's default (`[7]`), not
as the camel-translated lookup (`[3]`); the same input as a plain object
does apply the fallback. -/
theorem struct_map_input_ignores_camel_counterexample :
    getKey ([("my_key", 3)] : List (String × Nat)) "myKey" = none ∧
    camelLookup (fun s => if s = "my_key" then "myKey" else s) [("my_key", 3)] "myKey" =
      some 3 ∧
    (constructChild natClass (some 3)).map (fun c => c.toU8a none) = .ok [3] ∧
    (Struct.construct (fun s => if s = "my_key" then "myKey" else s) [("myKey", natClass)]
        (some (.fromObj (.map [("my_key", 3)]))) []).map (fun s => s.toU8a .undef) =
      .ok [7] ∧
    (Struct.construct (fun s => if s = "my_key" then "myKey" else s) [("myKey", natClass)]
        (some (.fromObj (.obj [("my_key", 3)]))) []).map (fun s => s.toU8a .undef) =
      .ok [3] :=
  ⟨rfl, rfl, rfl, rfl, rfl⟩

/-- C6 (amended): each declared field is decoded by key lookup in the input
under the declared alias translation; for an object-shaped input a
camel-case translation of the input's keys is consulted when the direct key
is absent, while for a `Map`-shaped input only the direct (alias-translated)
lookup is used, with no camel-case fallback. -/
theorem struct_object_and_map_key_lookup {α : Type u} (camel : String → String)
    (Types : List (String × CodecClass α)) (jm : List (String × String))
    (fs : List (String × α)) (s₁ s₂ : Struct α)
    (hTnd : (Types.map Prod.fst).Nodup)
    (h₁ : Struct.construct camel Types (some (.fromObj (.obj fs))) jm = .ok s₁)
    (h₂ : Struct.construct camel Types (some (.fromObj (.map fs))) jm = .ok s₂) :
    ∀ i k T, Types.get? i = some (k, T) → jsonKeyOf jm k ≠ "" →
      (∃ c, s₁.entries.get? i = some (k, c) ∧
        constructChild T (match getKey fs (jsonKeyOf jm k) with
          | some v => some v
          | none => camelLookup camel fs (jsonKeyOf jm k)) = .ok c) ∧
      (∃ c, s₂.entries.get? i = some (k, c) ∧
        constructChild T (getKey fs (jsonKeyOf jm k)) = .ok c) := by
  intro i k T hT hjk
  constructor
  · simp only [Struct.construct] at h₁
    cases hd : decodeStructFromObject camel Types (.obj fs) jm with
    | error e => rw [hd] at h₁; cases h₁
    | ok raw =>
      rw [hd] at h₁
      cases h₁
      obtain ⟨hkeys, hget⟩ := decodeFields_ok (decodeStructFromObject_ok hd)
      obtain ⟨c, hraw, hcon⟩ := hget i k T hT
      have hrawnd : (raw.map Prod.fst).Nodup := by rw [hkeys]; exact hTnd
      refine ⟨c, by simpa [jsMapOfList_of_nodup hrawnd] using hraw, ?_⟩
      rwa [structAssign, if_neg hjk] at hcon
  · simp only [Struct.construct] at h₂
    cases hd : decodeStructFromObject camel Types (.map fs) jm with
    | error e => rw [hd] at h₂; cases h₂
    | ok raw =>
      rw [hd] at h₂
      cases h₂
      obtain ⟨hkeys, hget⟩ := decodeFields_ok (decodeStructFromObject_ok hd)
      obtain ⟨c, hraw, hcon⟩ := hget i k T hT
      have hrawnd : (raw.map Prod.fst).Nodup := by rw [hkeys]; exact hTnd
      refine ⟨c, by simpa [jsMapOfList_of_nodup hrawnd] using hraw, ?_⟩
      rwa [structAssign, if_neg hjk] at hcon

/-- Witness for C6 (amended) at a concrete field decoded from an object and
from a map. -/
theorem struct_object_and_map_key_lookup_witness :
    ((["a"] : List String).Nodup) ∧
    ((∃ c, structLookupW.entries.get? 0 = some ("a", c) ∧
        constructChild natClass (match getKey ([("a", 5)] : List (String × Nat))
            (jsonKeyOf [] "a") with
          | some v => some v
          | none => camelLookup id [("a", 5)] (jsonKeyOf [] "a")) = .ok c) ∧
      (∃ c, structLookupW.entries.get? 0 = some ("a", c) ∧
        constructChild natClass (getKey ([("a", 5)] : List (String × Nat))
          (jsonKeyOf [] "a")) = .ok c)) :=
  ⟨by decide, struct_object_and_map_key_lookup id [("a", natClass)] [] [("a", 5)]
    structLookupW structLookupW (by simp) rfl rfl 0 "a" natClass rfl (by decide)⟩

end StructCodec

/-- C9: a Text built from `"中文"` reports 7 encoded bytes — 1 compact-length
byte plus 6 UTF-8 bytes — while its logical length is 2 characters: the byte
length counts UTF-8 bytes, not characters. -/
theorem text_byte_length_counts_utf8_bytes :
    (TextCodec.Text.ofInput (some "中文")).encodedLength = 7 ∧
    TextCodec.strUtf8Size "中文" = 6 ∧
    TextCodec.compactByteCount 6 = 1 ∧
    (TextCodec.Text.ofInput (some "中文")).length = 2 := by
  decide
